import Mathlib

/-!
Shallow embedding of the zapcolors colored text encoder
(colored_text_encoder.go) and verification of its specification.

Byte buffers are modelled as `List Nat` (each element one byte value).
Go strings that reach the buffer are modelled by their byte sequences;
the helper `strBytes` converts an ASCII Lean string literal to its byte
list (for ASCII text the UTF-8 bytes coincide with the code points).
The `sync.Pool` is modelled as a list of encoder instances with
deterministic get (pop front, or a zero-initialised fresh instance) and
put (push front).  The output sink (`io.Writer`) is a function from the
byte list written to the pair (count written, optional error code);
a `nil` sink is `Option.none`.  Error codes of external collaborators
are modelled as an arbitrary type where the code merely forwards them.
-/

namespace Zapcolors

/-- Byte list of an ASCII string literal (code points = UTF-8 bytes). -/
def strBytes (s : String) : List Nat :=
  s.data.map Char.toNat

/-- The encoder instance: `textEncoder` from the source, with its
growable byte buffer, configured time layout and the transient
first-field-in-nested-frame flag. -/
structure Enc where
  bytes : List Nat
  timeFmt : String
  firstNested : Bool
deriving DecidableEq, Repr

/-- A zero-value instance as produced by the pool's `New` function
(`make([]byte, 0, initialBufSize)` has empty contents). -/
def freshEnc : Enc := { bytes := [], timeFmt := "", firstNested := false }

/-- Pool get: `textPool.Get()` — reuse an instance if one is pooled,
otherwise allocate a fresh zero-value instance. -/
def poolGet : List Enc → Enc × List Enc
  | [] => (freshEnc, [])
  | e :: es => (e, es)

/-- Pool put: `textPool.Put(enc)` (the source method `Free`). -/
def poolPut (pool : List Enc) (e : Enc) : List Enc := e :: pool

/-- The method `truncate`: `enc.bytes = enc.bytes[:0]`. -/
def truncate (e : Enc) : Enc := { e with bytes := [] }

/-- Sum of the byte values of a key, the loop
`for _, c := range []byte(key) { sum += int(c) }`. -/
def sumBytes (key : List Nat) : Nat :=
  key.foldl (fun a c => a + c) 0

/-- The color computation `(sum % 7) + 1` from `addKey`. -/
def colorCode (key : List Nat) : Nat :=
  sumBytes key % 7 + 1

/-- Bytes of `fmt.Sprintf("\x1b[3%d;1m%s\x1b[0m", color, key)`:
ESC `[` `3` digit `;` `1` `m`, the key, then ESC `[` `0` `m`.
The color is always in 1..7, hence a single digit `48 + color`. -/
def keyEscBytes (key : List Nat) : List Nat :=
  [27, 91, 51, 48 + colorCode key, 59, 49, 109] ++ key ++ [27, 91, 48, 109]

/-- The method `addKey`: optional separating space (emitted when the
buffer is non-empty and the first-nested flag is down; otherwise the
flag is cleared), then the colorized key and the `=` separator. -/
def addKey (e : Enc) (key : List Nat) : Enc :=
  let e1 :=
    if e.bytes ≠ [] ∧ e.firstNested = false then
      { e with bytes := e.bytes ++ [32] }
    else
      { e with firstNested := false }
  { e1 with bytes := e1.bytes ++ keyEscBytes key ++ [61] }

/-- `AddString`: key, then the value bytes verbatim. -/
def AddString (e : Enc) (key val : List Nat) : Enc :=
  let e1 := addKey e key
  { e1 with bytes := e1.bytes ++ val }

/-- Bytes appended by `strconv.AppendBool`. -/
def boolBytes (b : Bool) : List Nat :=
  if b then strBytes "true" else strBytes "false"

/-- `AddBool`. -/
def AddBool (e : Enc) (key : List Nat) (val : Bool) : Enc :=
  let e1 := addKey e key
  { e1 with bytes := e1.bytes ++ boolBytes val }

/-- Decimal digit bytes of a natural number, most significant first:
the output of `strconv.AppendUint(b, n, 10)`. -/
def natDec (n : Nat) : List Nat :=
  if _h : n < 10 then [48 + n]
  else natDec (n / 10) ++ [48 + n % 10]
decreasing_by exact Nat.div_lt_self (by omega) (by omega)

/-- Decimal bytes of an integer, `strconv.AppendInt(b, i, 10)`:
a `-` sign for negatives, then the decimal digits of the magnitude. -/
def intDec (i : Int) : List Nat :=
  if i < 0 then 45 :: natDec (-i).toNat else natDec i.toNat

/-- `AddInt64` (and through it `AddInt`).  Go `int64` values are
embedded into `Int`; `strconv.AppendInt` renders sign and magnitude,
which `intDec` reproduces for the whole `int64` range. -/
def AddInt64 (e : Enc) (key : List Nat) (val : Int) : Enc :=
  let e1 := addKey e key
  { e1 with bytes := e1.bytes ++ intDec val }

/-- `AddUint64` (and through it `AddUint`). -/
def AddUint64 (e : Enc) (key : List Nat) (val : Nat) : Enc :=
  let e1 := addKey e key
  { e1 with bytes := e1.bytes ++ natDec val }

/-- One lowercase hexadecimal digit byte. -/
def hexDigit (d : Nat) : Nat :=
  if d < 10 then 48 + d else 87 + d

/-- Lowercase hexadecimal digit bytes of a natural number, most
significant first: the output of `strconv.AppendUint(b, n, 16)`. -/
def natHex (n : Nat) : List Nat :=
  if _h : n < 16 then [hexDigit n]
  else natHex (n / 16) ++ [hexDigit (n % 16)]
decreasing_by exact Nat.div_lt_self (by omega) (by omega)

/-- `AddUintptr`: key, the literal `0x`, then the hex digits. -/
def AddUintptr (e : Enc) (key : List Nat) (val : Nat) : Enc :=
  let e1 := addKey e key
  { e1 with bytes := e1.bytes ++ [48, 120] ++ natHex val }

/-- `AddFloat64`: key, then the bytes produced by
`strconv.AppendFloat(b, val, 'f', -1, 64)`.  The IEEE-754 shortest
round-trip rendering itself is floating-point machinery outside this
embedding, so the rendered text is taken as an argument. -/
def AddFloat64 (e : Enc) (key valTxt : List Nat) : Enc :=
  let e1 := addKey e key
  { e1 with bytes := e1.bytes ++ valTxt }

/-- The state of the encoder right after `AddMarshaler` has emitted the
key, set `firstNested`, and appended the opening brace — the state the
nested object's `MarshalLog` callback receives. -/
def marshalOpen (e : Enc) (key : List Nat) : Enc :=
  let e1 := addKey e key
  { e1 with firstNested := true, bytes := e1.bytes ++ [123] }

/-- `AddMarshaler`: key, `{`, delegate to the object's `MarshalLog`
callback (modelled as a state transformer returning an optional error),
`}`, clear the flag, and return the callback's error unchanged. -/
def AddMarshaler {α : Type} (e : Enc) (key : List Nat)
    (obj : Enc → Enc × Option α) : Enc × Option α :=
  let e2 := marshalOpen e key
  let r := obj e2
  ({ r.1 with bytes := r.1.bytes ++ [125], firstNested := false }, r.2)

/-- `AddObject`: the generic fallback — `AddString` of the object's
`fmt.Sprintf("%+v", obj)` rendering (taken as an argument, the
stringification being external), and a nil error. -/
def AddObject {α : Type} (e : Enc) (key objTxt : List Nat) :
    Enc × Option α :=
  (AddString e key objTxt, none)

/-- `Clone`: take an instance from the pool, truncate it, copy the
buffer contents, the time format and the flag. -/
def Clone (pool : List Enc) (e : Enc) : Enc × List Enc :=
  let c1 := truncate (poolGet pool).1
  ({ c1 with bytes := c1.bytes ++ e.bytes,
             timeFmt := e.timeFmt,
             firstNested := e.firstNested }, (poolGet pool).2)

/-- Levels of the external `zap` package (`iota - 1`: debug is -1 and
the rest follow in order), as used by the `switch` in `addLevel`. -/
def DebugLevel : Int := -1

/-- Info level of the external `zap` package. -/
def InfoLevel : Int := 0

/-- Warn level of the external `zap` package. -/
def WarnLevel : Int := 1

/-- Error level of the external `zap` package. -/
def ErrorLevel : Int := 2

/-- Panic level of the external `zap` package. -/
def PanicLevel : Int := 3

/-- Fatal level of the external `zap` package. -/
def FatalLevel : Int := 4

/-- The bytes `addLevel` appends for a level: one of six fixed
color-wrapped bracketed tags, or the raw decimal of the level value
(`strconv.AppendInt(final.bytes, int64(lvl), 10)`) for any other. -/
def levelTag (lvl : Int) : List Nat :=
  if lvl = DebugLevel then
    [27, 91, 51, 50, 59, 49, 109] ++ strBytes "[DEBG]" ++ [27, 91, 48, 109]
  else if lvl = InfoLevel then
    [27, 91, 51, 52, 59, 49, 109] ++ strBytes "[INFO]" ++ [27, 91, 48, 109]
  else if lvl = WarnLevel then
    [27, 91, 51, 51, 59, 49, 109] ++ strBytes "[WARN]" ++ [27, 91, 48, 109]
  else if lvl = ErrorLevel then
    [27, 91, 51, 49, 59, 49, 109] ++ strBytes "[ERRO]" ++ [27, 91, 48, 109]
  else if lvl = PanicLevel then
    [27, 91, 51, 49, 59, 49, 109] ++ strBytes "[PANC]" ++ [27, 91, 48, 109]
  else if lvl = FatalLevel then
    [27, 91, 51, 49, 59, 49, 109] ++ strBytes "[FATA]" ++ [27, 91, 48, 109]
  else
    intDec lvl

/-- A timestamp, modelled by what `t.AppendFormat` produces for each
layout string (the time-formatting library is an external
collaborator). -/
def Timestamp : Type := String → List Nat

/-- The method `addTime`: if the configured layout is empty nothing is
emitted, otherwise a space and the formatted timestamp. -/
def addTimeBytes (timeFmt : String) (t : Timestamp) : List Nat :=
  if timeFmt = "" then [] else 32 :: t timeFmt

/-- Bytes of `fmt.Sprintf("%-25s", msg)`: the message left-justified,
padded with trailing spaces to a minimum width of 25 (for ASCII
messages the rune width equals the byte length). -/
def padMsg (msg : List Nat) : List Nat :=
  msg ++ List.replicate (25 - msg.length) 32

/-- The method `addMessage`: nothing for an empty message, otherwise a
space and the padded message. -/
def addMessageBytes (msg : List Nat) : List Nat :=
  if msg = [] then [] else 32 :: padMsg msg

/-- The complete line `WriteEntry` assembles into the pooled `final`
buffer: level tag, optional time, optional message, optional field
buffer (each with its separating space), and the trailing newline. -/
def assembleLine (e : Enc) (msg : List Nat) (lvl : Int)
    (t : Timestamp) : List Nat :=
  let b1 := levelTag lvl
  let b2 := b1 ++ addTimeBytes e.timeFmt t
  let b3 := b2 ++ addMessageBytes msg
  let b4 := if e.bytes ≠ [] then b3 ++ 32 :: e.bytes else b3
  b4 ++ [10]

/-- A sink (`io.Writer`): given the bytes to write, reports the count
written and an optional error code.  A `nil` sink is `none`. -/
def Sink (α : Type) : Type := List Nat → Nat × Option α

/-- Errors `WriteEntry` can return: the nil-sink error, a sink error
forwarded from the writer, or the short-write
(`incomplete write: only wrote n of expected bytes`) error. -/
inductive WErr (α : Type) where
  | nilSink : WErr α
  | sinkErr (e : α) : WErr α
  | shortWrite (n expected : Nat) : WErr α
deriving DecidableEq, Repr

/-- Outcome of the checks after the single write call: a sink error is
returned as is; otherwise a written count different from the assembled
length is the short-write error; otherwise success. -/
def writeOutcome {α : Type} (n : Nat) (werr : Option α)
    (expected : Nat) : Option (WErr α) :=
  match werr with
  | some err => some (.sinkErr err)
  | none =>
    if n ≠ expected then some (.shortWrite n expected) else none

/-- `WriteEntry`: fail fast on a nil sink; otherwise get a pooled
buffer, truncate it, assemble the line, write it in one call, release
the assembly buffer back to the pool (on every outcome), then check the
sink error and the written count.  Returns the (unmodified) field
encoder, the new pool state and the optional error. -/
def WriteEntry {α : Type} (pool : List Enc) (e : Enc)
    (sink : Option (Sink α)) (msg : List Nat) (lvl : Int)
    (t : Timestamp) : Enc × List Enc × Option (WErr α) :=
  match sink with
  | none => (e, pool, some .nilSink)
  | some w =>
    let line := assembleLine e msg lvl t
    let p2 := poolPut (poolGet pool).2
      { truncate (poolGet pool).1 with bytes := line }
    (e, p2, writeOutcome (w line).1 (w line).2 line.length)

/-- The default time layout `time.RFC3339`. -/
def RFC3339 : String := "2006-01-02T15:04:05Z07:00"

/-- A construction-time option (`TextOption`). -/
def TextOption : Type := Enc → Enc

/-- `TextTimeFormat`: sets the time layout. -/
def TextTimeFormat (layout : String) : TextOption :=
  fun e => { e with timeFmt := layout }

/-- `TextNoTime`: `TextTimeFormat ""`. -/
def TextNoTime : TextOption := TextTimeFormat ""

/-- `NewColorEncoder`: pooled instance, truncated, default RFC3339
layout, then the options applied in order. -/
def NewColorEncoder (pool : List Enc) (options : List TextOption) :
    Enc × List Enc :=
  let (e0, p1) := poolGet pool
  let e1 := { truncate e0 with timeFmt := RFC3339 }
  (options.foldl (fun e opt => opt e) e1, p1)

/-! Native parsers for the round-trip property.  These model the Go
parsers (`strconv.ParseUint` base 10 and 16, `strconv.ParseInt`,
`strconv.ParseBool`) on the digit alphabets the encoder emits. -/

/-- Decimal parser: `strconv.ParseUint(s, 10, 64)` on digit bytes. -/
def parseDec (l : List Nat) : Nat :=
  l.foldl (fun a d => a * 10 + (d - 48)) 0

/-- Signed decimal parser: `strconv.ParseInt(s, 10, 64)` — an optional
leading minus sign, then the decimal magnitude. -/
def parseIntTxt (l : List Nat) : Int :=
  if l.head? = some 45 then -(parseDec l.tail : Int) else (parseDec l : Int)

/-- Value of one lowercase hexadecimal digit byte. -/
def hexVal (d : Nat) : Nat :=
  if d < 58 then d - 48 else d - 87

/-- Hexadecimal parser: `strconv.ParseUint(s, 16, 64)` on the lowercase
digit bytes (the `0x` prefix already stripped). -/
def parseHex (l : List Nat) : Nat :=
  l.foldl (fun a d => a * 16 + hexVal d) 0

/-- Boolean parser: `strconv.ParseBool` restricted to the two texts the
encoder emits. -/
def parseBoolTxt (l : List Nat) : Option Bool :=
  if l = strBytes "true" then some true
  else if l = strBytes "false" then some false
  else none

/-! Concrete collaborators used by the witness theorems. -/

/-- A sink that accepts the call but reports zero bytes written. -/
def w0 : Sink Nat := fun _ => (0, none)

/-- A timestamp whose rendering is empty for every layout. -/
def tEmpty : Timestamp := fun _ => []

/-- A nested object that appends one byte to the buffer and then fails
with error code 5. -/
def objW : Enc → Enc × Option Nat :=
  fun st => ({ st with bytes := st.bytes ++ [97] }, some 5)

/-! Helper lemmas shared by the claim theorems. -/

/-- Bytes appended by `addKey`: the conditional separating space, the
color-wrapped key and the `=` sign. -/
theorem addKey_bytes (e : Enc) (key : List Nat) :
    (addKey e key).bytes =
      e.bytes ++ (if e.bytes = [] ∨ e.firstNested then [] else [32])
        ++ keyEscBytes key ++ [61] := by
  unfold addKey
  by_cases h1 : e.bytes = [] <;> by_cases h2 : e.firstNested <;>
    simp [h1, h2]

/-- After `addKey` the first-nested flag is always down. -/
theorem addKey_flag (e : Enc) (key : List Nat) :
    (addKey e key).firstNested = false := by
  unfold addKey
  by_cases h1 : e.bytes = [] <;> by_cases h2 : e.firstNested <;>
    simp [h1, h2]

/-- `addKey` leaves the configured time format unchanged. -/
theorem addKey_timeFmt (e : Enc) (key : List Nat) :
    (addKey e key).timeFmt = e.timeFmt := by
  unfold addKey
  by_cases h1 : e.bytes = [] <;> by_cases h2 : e.firstNested <;>
    simp [h1, h2]

/-- The result of `addKey` is never the empty buffer. -/
theorem addKey_bytes_ne_nil (e : Enc) (key : List Nat) :
    (addKey e key).bytes ≠ [] := by
  rw [addKey_bytes]
  simp

/-- C1: every field-accumulation operation computes the color index of
key K as (sum of the bytes of K) mod 7 plus 1, always within 1..7 and
depending on the key alone, and emits the key wrapped in the ANSI
foreground escape for that index, the reset escape and the `=` sign;
each operation then appends its own value rendering after the key. -/
theorem keyColor_spec (e : Enc) (key : List Nat) :
    colorCode key = sumBytes key % 7 + 1 ∧
    1 ≤ colorCode key ∧ colorCode key ≤ 7 ∧
    (addKey e key).bytes =
      e.bytes ++ (if e.bytes = [] ∨ e.firstNested then [] else [32])
        ++ ([27, 91, 51, 48 + colorCode key, 59, 49, 109]
            ++ key ++ [27, 91, 48, 109]) ++ [61] ∧
    (∀ val, (AddString e key val).bytes = (addKey e key).bytes ++ val) ∧
    (∀ b, (AddBool e key b).bytes = (addKey e key).bytes ++ boolBytes b) ∧
    (∀ i, (AddInt64 e key i).bytes = (addKey e key).bytes ++ intDec i) ∧
    (∀ n, (AddUint64 e key n).bytes = (addKey e key).bytes ++ natDec n) ∧
    (∀ n, (AddUintptr e key n).bytes
      = (addKey e key).bytes ++ [48, 120] ++ natHex n) ∧
    (∀ v, (AddFloat64 e key v).bytes = (addKey e key).bytes ++ v) ∧
    (∀ o, (AddObject (α := Unit) e key o).1.bytes
      = (addKey e key).bytes ++ o) ∧
    (marshalOpen e key).bytes = (addKey e key).bytes ++ [123] := by
  refine ⟨rfl, ?_, ?_, ?_, fun _ => rfl, fun _ => rfl, fun _ => rfl,
    fun _ => rfl, fun _ => by simp [AddUintptr], fun _ => rfl,
    fun _ => rfl, rfl⟩
  · simp only [colorCode]
    omega
  · simp only [colorCode]
    omega
  · exact addKey_bytes e key

/-- C3: the first field at buffer-start and the first field inside a
freshly opened nested frame get no leading space; every other field is
preceded by exactly one separating space; `addKey` clears the flag,
`AddMarshaler` raises it for the callback, and after any accumulation
the buffer is non-empty with the flag down, so the next field does get
its single space. -/
theorem fieldSep_spec (e : Enc) (key : List Nat) :
    (e.bytes = [] →
      (addKey e key).bytes = e.bytes ++ keyEscBytes key ++ [61]) ∧
    (e.firstNested = true →
      (addKey e key).bytes = e.bytes ++ keyEscBytes key ++ [61]) ∧
    (e.bytes ≠ [] → e.firstNested = false →
      (addKey e key).bytes = e.bytes ++ [32] ++ keyEscBytes key ++ [61]) ∧
    (addKey e key).firstNested = false ∧
    (marshalOpen e key).firstNested = true ∧
    (∀ val, (AddString e key val).bytes ≠ [] ∧
      (AddString e key val).firstNested = false) := by
  refine ⟨?_, ?_, ?_, addKey_flag e key, rfl, ?_⟩
  · intro h1
    rw [addKey_bytes]
    simp [h1]
  · intro h2
    rw [addKey_bytes]
    simp [h2]
  · intro h1 h2
    rw [addKey_bytes]
    simp [h1, h2]
  · intro val
    refine ⟨?_, addKey_flag e key⟩
    show (addKey e key).bytes ++ val ≠ []
    simp [addKey_bytes_ne_nil e key]

/-- C3 witness: concrete first field with no space, concrete later
field with exactly one space. -/
theorem fieldSep_spec_witness :
    (addKey freshEnc [107]).bytes = freshEnc.bytes ++ keyEscBytes [107] ++ [61] ∧
    (addKey { bytes := [97], timeFmt := "", firstNested := false } [107]).bytes
      = [97] ++ [32] ++ keyEscBytes [107] ++ [61] :=
  ⟨(fieldSep_spec freshEnc [107]).1 rfl,
   (fieldSep_spec { bytes := [97], timeFmt := "", firstNested := false }
      [107]).2.2.1 (by decide) rfl⟩

/-- C8: Clone copies the buffer contents, the time format and the
first-nested flag of the original at the moment of cloning, onto a
pool instance distinct from the original value. -/
theorem clone_spec (pool : List Enc) (e : Enc) :
    (Clone pool e).1.bytes = e.bytes ∧
    (Clone pool e).1.timeFmt = e.timeFmt ∧
    (Clone pool e).1.firstNested = e.firstNested ∧
    (Clone pool e).2 = (poolGet pool).2 := by
  unfold Clone truncate
  simp

/-- C10: AddObject succeeds for every key and object rendering — the
returned error is always `none`, and the buffer effect is exactly that
of AddString on the rendered text. -/
theorem addObject_noErr_spec {α : Type} (e : Enc) (key objTxt : List Nat) :
    (AddObject (α := α) e key objTxt).2 = none ∧
    (AddObject (α := α) e key objTxt).1 = AddString e key objTxt :=
  ⟨rfl, rfl⟩

/-- Every byte of a decimal rendering is an ASCII digit. -/
theorem natDec_digits (n : Nat) : ∀ d ∈ natDec n, 48 ≤ d ∧ d ≤ 57 := by
  induction n using Nat.strong_induction_on with
  | _ n ih =>
    intro d hd
    unfold natDec at hd
    split at hd
    · next h =>
      simp only [List.mem_singleton] at hd
      omega
    · next h =>
      rcases List.mem_append.mp hd with h1 | h2
      · exact ih (n / 10) (Nat.div_lt_self (by omega) (by omega)) d h1
      · simp only [List.mem_singleton] at h2
        omega

/-- A decimal rendering is never empty. -/
theorem natDec_ne_nil (n : Nat) : natDec n ≠ [] := by
  unfold natDec
  split <;> simp

/-- Every byte of a signed decimal rendering is a digit or the minus
sign. -/
theorem intDec_digits (i : Int) :
    ∀ d ∈ intDec i, d = 45 ∨ (48 ≤ d ∧ d ≤ 57) := by
  intro d hd
  unfold intDec at hd
  split at hd
  · rcases List.mem_cons.mp hd with h1 | h2
    · exact Or.inl h1
    · exact Or.inr (natDec_digits _ d h2)
  · exact Or.inr (natDec_digits _ d hd)

/-- Parsing a decimal rendering recovers the number
(`strconv.ParseUint` inverts `strconv.AppendUint` base 10). -/
theorem parseDec_natDec (n : Nat) : parseDec (natDec n) = n := by
  induction n using Nat.strong_induction_on with
  | _ n ih =>
    unfold natDec
    split
    · next h =>
      simp [parseDec]
    · next h =>
      have ihn := ih (n / 10) (Nat.div_lt_self (by omega) (by omega))
      simp only [parseDec, List.foldl_append, List.foldl_cons,
        List.foldl_nil] at ihn ⊢
      rw [ihn]
      omega

/-- Parsing a signed decimal rendering recovers the integer
(`strconv.ParseInt` inverts `strconv.AppendInt`). -/
theorem parseInt_intDec (i : Int) : parseIntTxt (intDec i) = i := by
  by_cases hi : i < 0
  · simp only [intDec, if_pos hi, parseIntTxt, List.head?_cons,
      List.tail_cons, Option.some.injEq]
    rw [if_pos trivial, parseDec_natDec]
    omega
  · simp only [intDec, if_neg hi]
    rcases hl : natDec i.toNat with _ | ⟨d, rest⟩
    · exact absurd hl (natDec_ne_nil _)
    · have hd : 48 ≤ d := by
        have := natDec_digits i.toNat d (by rw [hl]; exact List.mem_cons_self d rest)
        omega
      have hne : ¬((d :: rest).head? = some 45) := by
        simp only [List.head?_cons, Option.some.injEq]
        omega
      rw [parseIntTxt, if_neg hne, ← hl, parseDec_natDec]
      omega

/-- One hex digit byte parses back to its value. -/
theorem hexVal_hexDigit (d : Nat) (h : d < 16) :
    hexVal (hexDigit d) = d := by
  unfold hexDigit hexVal
  split <;> split <;> omega

/-- Parsing a hexadecimal rendering recovers the number
(`strconv.ParseUint` base 16 inverts `strconv.AppendUint` base 16,
after the literal `0x` prefix is stripped). -/
theorem parseHex_natHex (n : Nat) : parseHex (natHex n) = n := by
  induction n using Nat.strong_induction_on with
  | _ n ih =>
    unfold natHex
    split
    · next h =>
      simp [parseHex, hexVal_hexDigit n h]
    · next h =>
      have ihn := ih (n / 16) (Nat.div_lt_self (by omega) (by omega))
      simp only [parseHex, List.foldl_append, List.foldl_cons,
        List.foldl_nil] at ihn ⊢
      rw [ihn, hexVal_hexDigit (n % 16) (by omega)]
      omega

/-- Parsing a boolean rendering recovers the boolean
(`strconv.ParseBool` inverts `strconv.AppendBool`). -/
theorem parseBool_boolBytes (b : Bool) : parseBoolTxt (boolBytes b) = some b := by
  cases b <;> decide

/-- C2 counterexample: the error, panic and fatal tags all carry the
identical 7-byte ANSI color escape (31, bold red), so the five
recognized level classes do not have mutually distinct colors — error
shares its color with the fatal-class levels. -/
theorem levelColor_error_fatal_shared :
    ErrorLevel ≠ PanicLevel ∧ ErrorLevel ≠ FatalLevel ∧
    PanicLevel ≠ FatalLevel ∧
    (levelTag ErrorLevel).take 7 = (levelTag PanicLevel).take 7 ∧
    (levelTag ErrorLevel).take 7 = (levelTag FatalLevel).take 7 := by
  decide

/-- C2 (amended): each of the six recognized level values yields its
fixed 6-character bracketed abbreviation wrapped in an ANSI color and
a reset; debug, info and warn carry mutually distinct colors, also
distinct from the error color, while error, panic and fatal share one
color; any unrecognized level yields its raw decimal representation
containing no escape byte and no bracket byte. -/
theorem addLevel_spec :
    (levelTag DebugLevel
        = [27, 91, 51, 50, 59, 49, 109] ++ strBytes "[DEBG]" ++ [27, 91, 48, 109] ∧
      levelTag InfoLevel
        = [27, 91, 51, 52, 59, 49, 109] ++ strBytes "[INFO]" ++ [27, 91, 48, 109] ∧
      levelTag WarnLevel
        = [27, 91, 51, 51, 59, 49, 109] ++ strBytes "[WARN]" ++ [27, 91, 48, 109] ∧
      levelTag ErrorLevel
        = [27, 91, 51, 49, 59, 49, 109] ++ strBytes "[ERRO]" ++ [27, 91, 48, 109] ∧
      levelTag PanicLevel
        = [27, 91, 51, 49, 59, 49, 109] ++ strBytes "[PANC]" ++ [27, 91, 48, 109] ∧
      levelTag FatalLevel
        = [27, 91, 51, 49, 59, 49, 109] ++ strBytes "[FATA]" ++ [27, 91, 48, 109] ∧
      (strBytes "[DEBG]").length = 6 ∧ (strBytes "[INFO]").length = 6 ∧
      (strBytes "[WARN]").length = 6 ∧ (strBytes "[ERRO]").length = 6 ∧
      (strBytes "[PANC]").length = 6 ∧ (strBytes "[FATA]").length = 6) ∧
    ((levelTag DebugLevel).take 7 ≠ (levelTag InfoLevel).take 7 ∧
      (levelTag DebugLevel).take 7 ≠ (levelTag WarnLevel).take 7 ∧
      (levelTag DebugLevel).take 7 ≠ (levelTag ErrorLevel).take 7 ∧
      (levelTag InfoLevel).take 7 ≠ (levelTag WarnLevel).take 7 ∧
      (levelTag InfoLevel).take 7 ≠ (levelTag ErrorLevel).take 7 ∧
      (levelTag WarnLevel).take 7 ≠ (levelTag ErrorLevel).take 7 ∧
      (levelTag ErrorLevel).take 7 = (levelTag PanicLevel).take 7 ∧
      (levelTag ErrorLevel).take 7 = (levelTag FatalLevel).take 7) ∧
    (∀ lvl : Int, lvl ≠ DebugLevel → lvl ≠ InfoLevel → lvl ≠ WarnLevel →
      lvl ≠ ErrorLevel → lvl ≠ PanicLevel → lvl ≠ FatalLevel →
      levelTag lvl = intDec lvl ∧
        27 ∉ levelTag lvl ∧ 91 ∉ levelTag lvl ∧ 93 ∉ levelTag lvl) := by
  refine ⟨by decide, by decide, ?_⟩
  intro lvl h1 h2 h3 h4 h5 h6
  have ht : levelTag lvl = intDec lvl := by
    simp [levelTag, h1, h2, h3, h4, h5, h6]
  refine ⟨ht, ?_, ?_, ?_⟩ <;> rw [ht] <;> intro hmem <;>
    rcases intDec_digits lvl _ hmem with h | h <;> omega

/-- C2 witness: the unrecognized level 7 renders as the bare decimal
digit with no escape or bracket bytes. -/
theorem addLevel_spec_witness :
    levelTag 7 = intDec 7 ∧
      27 ∉ levelTag 7 ∧ 91 ∉ levelTag 7 ∧ 93 ∉ levelTag 7 :=
  addLevel_spec.2.2 7 (by decide) (by decide) (by decide) (by decide)
    (by decide) (by decide)

/-- C4: when the sink reports no error but a written count different
from the assembled length, WriteEntry returns the short-write error;
and on every path that performs the write — success, sink error and
short write alike — the assembly buffer is released back to the pool. -/
theorem shortWrite_release_spec {α : Type} (pool : List Enc) (e : Enc)
    (w : Sink α) (msg : List Nat) (lvl : Int) (t : Timestamp) :
    (WriteEntry pool e (some w) msg lvl t).2.1
      = poolPut (poolGet pool).2
          { truncate (poolGet pool).1 with
              bytes := assembleLine e msg lvl t } ∧
    ((w (assembleLine e msg lvl t)).2 = none →
      (w (assembleLine e msg lvl t)).1 ≠ (assembleLine e msg lvl t).length →
      (WriteEntry pool e (some w) msg lvl t).2.2
        = some (.shortWrite (w (assembleLine e msg lvl t)).1
            (assembleLine e msg lvl t).length)) := by
  refine ⟨rfl, ?_⟩
  intro h1 h2
  show writeOutcome _ _ _ = _
  rw [h1]
  simp [writeOutcome, h2]

/-- C4 witness: a sink that accepts the call but writes zero of the
non-empty line produces the short-write error, and the assembly buffer
ends up back in the pool. -/
theorem shortWrite_release_spec_witness :
    (WriteEntry [] freshEnc (some w0) [109] 0 tEmpty).2.1
      = poolPut (poolGet ([] : List Enc)).2
          { truncate (poolGet ([] : List Enc)).1 with
              bytes := assembleLine freshEnc [109] 0 tEmpty } ∧
    (WriteEntry [] freshEnc (some w0) [109] 0 tEmpty).2.2
      = some (.shortWrite (w0 (assembleLine freshEnc [109] 0 tEmpty)).1
          (assembleLine freshEnc [109] 0 tEmpty).length) :=
  ⟨(shortWrite_release_spec [] freshEnc w0 [109] 0 tEmpty).1,
   (shortWrite_release_spec [] freshEnc w0 [109] 0 tEmpty).2 rfl (by decide)⟩

/-- C5: when the nested object's callback fails, AddMarshaler returns
exactly that error, and the buffer still holds the colorized key, the
equals sign, the opening brace, everything the callback appended, and
the closing brace. -/
theorem marshalErr_spec {α : Type} (e : Enc) (key : List Nat)
    (obj : Enc → Enc × Option α) (err : α) (fieldsOut : List Nat)
    (hApp : (obj (marshalOpen e key)).1.bytes
      = (marshalOpen e key).bytes ++ fieldsOut)
    (hErr : (obj (marshalOpen e key)).2 = some err) :
    (AddMarshaler e key obj).2 = some err ∧
    (AddMarshaler e key obj).1.bytes
      = (addKey e key).bytes ++ [123] ++ fieldsOut ++ [125] ∧
    (AddMarshaler e key obj).1.firstNested = false ∧
    (addKey e key).bytes
      = e.bytes ++ (if e.bytes = [] ∨ e.firstNested then [] else [32])
        ++ keyEscBytes key ++ [61] := by
  refine ⟨hErr, ?_, rfl, addKey_bytes e key⟩
  show (obj (marshalOpen e key)).1.bytes ++ [125] = _
  rw [hApp]
  show ((addKey e key).bytes ++ [123]) ++ fieldsOut ++ [125] = _
  simp [List.append_assoc]

/-- C5 witness: a nested object that appends one field byte and fails
with code 5 — the error comes out unchanged and the braces frame the
partial content. -/
theorem marshalErr_spec_witness :
    (AddMarshaler freshEnc [107] objW).2 = some 5 ∧
    (AddMarshaler freshEnc [107] objW).1.bytes
      = (addKey freshEnc [107]).bytes ++ [123] ++ [97] ++ [125] ∧
    (AddMarshaler freshEnc [107] objW).1.firstNested = false ∧
    (addKey freshEnc [107]).bytes
      = freshEnc.bytes
        ++ (if freshEnc.bytes = [] ∨ freshEnc.firstNested then [] else [32])
        ++ keyEscBytes [107] ++ [61] :=
  marshalErr_spec freshEnc [107] objW 5 [97] rfl rfl

/-- C6: the scenario — one string field user=alice, level info,
message login, default RFC3339 layout, a fixed timestamp — assembles
exactly the line: colored [INFO] tag, space, timestamp, space, the
message padded to 25 characters (20 trailing spaces), space, the field
buffer with the user key in palette color 7, newline; and the write of
that line through a full sink succeeds. -/
theorem scenario_line_spec :
    assembleLine
        (AddString (NewColorEncoder [] []).1 (strBytes "user") (strBytes "alice"))
        (strBytes "login") InfoLevel (fun _ => strBytes "2016-01-01T02:03:04Z")
      = [27, 91, 51, 52, 59, 49, 109] ++ strBytes "[INFO]" ++ [27, 91, 48, 109]
        ++ [32] ++ strBytes "2016-01-01T02:03:04Z"
        ++ [32] ++ strBytes "login" ++ List.replicate 20 32
        ++ [32] ++ ([27, 91, 51, 55, 59, 49, 109] ++ strBytes "user"
            ++ [27, 91, 48, 109] ++ [61] ++ strBytes "alice")
        ++ [10] ∧
    colorCode (strBytes "user") = 7 ∧
    (strBytes "login").length = 5 ∧
    (WriteEntry []
        (AddString (NewColorEncoder [] []).1 (strBytes "user") (strBytes "alice"))
        (some (fun l => (l.length, (none : Option Nat))))
        (strBytes "login") InfoLevel
        (fun _ => strBytes "2016-01-01T02:03:04Z")).2.2 = none := by
  refine ⟨by decide, by decide, by decide, by decide⟩

/-- C9: WriteEntry never modifies the field encoder itself — buffer,
time format and flag are returned exactly as given on every path — and
never releases it to the pool: with no sink the pool is untouched, and
with a sink the only instance released is the assembly buffer. -/
theorem writeEntry_frame_spec {α : Type} (pool : List Enc) (e : Enc)
    (sink : Option (Sink α)) (msg : List Nat) (lvl : Int) (t : Timestamp) :
    (WriteEntry pool e sink msg lvl t).1 = e ∧
    (sink = none → (WriteEntry pool e sink msg lvl t).2.1 = pool) ∧
    (∀ w, sink = some w →
      (WriteEntry pool e sink msg lvl t).2.1
        = poolPut (poolGet pool).2
            { truncate (poolGet pool).1 with
                bytes := assembleLine e msg lvl t }) := by
  refine ⟨?_, ?_, ?_⟩
  · cases sink <;> rfl
  · intro h
    subst h
    rfl
  · intro w h
    subst h
    rfl

/-- C9 witness: with a concrete encoder, sink and pool, the field
encoder comes back unchanged and only the assembly buffer is pooled. -/
theorem writeEntry_frame_spec_witness :
    (WriteEntry [] freshEnc (some w0) [109] 0 tEmpty).1 = freshEnc ∧
    (WriteEntry [] freshEnc (some w0) [109] 0 tEmpty).2.1
      = poolPut (poolGet ([] : List Enc)).2
          { truncate (poolGet ([] : List Enc)).1 with
              bytes := assembleLine freshEnc [109] 0 tEmpty } :=
  ⟨(writeEntry_frame_spec [] freshEnc (some w0) [109] 0 tEmpty).1,
   (writeEntry_frame_spec [] freshEnc (some w0) [109] 0 tEmpty).2.2 w0 rfl⟩

end Zapcolors
